import Mathlib

/-!
Verification of the research_finder aggregation engine.

A shallow embedding, in Lean 4, of the core of the `research_finder`
repository: the `Aggregator` (orchestrator, dedup, run summary) from
`src/research_finder/aggregator.py`, the `CacheManager` from
`src/research_finder/cache.py`, the rate-limit logic of
`src/research_finder/searchers/base_searcher.py`, and the citation-count
normalization of `src/research_finder/utils.py` together with the record
construction of `src/research_finder/searchers/arxiv.py`.

Python dictionaries of search results are embedded as `Record` values; a
searcher is embedded as its name, the positional-parameter range of its
`search` method, and the outcome of executing `search` followed by
`get_results` (a list of records, or an exception rendered as
`Except.error`). Wall-clock times are embedded as rationals.
-/

namespace ResearchFinder

/-- An article record as the aggregator sees it: a Python dict from which
`_process_searchers` reads `result.get('DOI', '')` and
`result.get('Title', '')`, plus the `Source` field used to attribute a
record to the adapter that produced it. A missing key is embedded as `""`. -/
structure Record where
  title : String
  doi : String
  source : String
deriving DecidableEq, Repr

/-- Strip leading and trailing whitespace from a character list
(Python `str.strip`). -/
def trimChars (cs : List Char) : List Char :=
  ((cs.dropWhile Char.isWhitespace).reverse.dropWhile Char.isWhitespace).reverse

/-- Python `s.lower().strip()` applied by `_process_searchers` (aggregator.py
lines 93-94) to the DOI and Title before dedup: lower-case every
character, then strip surrounding whitespace. Implemented over the
character list so that it evaluates by kernel reduction. -/
def normKey (s : String) : String :=
  String.mk (trimChars (s.data.map Char.toLower))

/-- The filters dictionary (`Dict[str, Any]` in the source): an association
list of filter name to value, values possibly `None`. Python dict keys are
unique, which proofs carry as a `Nodup` hypothesis where it matters. -/
def Filters := List (String × Option Int)

/-- One source adapter as the orchestrator sees it: its display name, the
number of positional parameters its `search` method requires and accepts
(after `self`), and the outcome of `search` + `get_results` once the call
binds — `Except.error` embeds a raised exception. -/
structure Searcher where
  name : String
  minArgs : Nat
  maxArgs : Nat
  behavior : String → Int → String → List (String × Option Int) → Except String (List Record)

/-- The orchestrator's call `searcher.search(query, limit, search_type,
filters)` (aggregator.py line 87) followed by `get_results`. Python binds
the four positional arguments against the callee's signature; a signature
that cannot accept four positional arguments raises `TypeError` before the
method body runs. -/
def callSearch (s : Searcher) (query : String) (limit : Int) (searchType : String)
    (filters : List (String × Option Int)) : Except String (List Record) :=
  if s.minArgs ≤ 4 ∧ 4 ≤ s.maxArgs then s.behavior query limit searchType filters
  else Except.error "TypeError"

/-- The mutable state of one run of `_process_searchers`: the two dedup
sets (`seen_dois`, `seen_titles_without_doi`), the run-summary lists
(`last_successful_searchers`, `last_failed_searchers`), and the sequence of
records yielded so far. -/
structure AggState where
  seenDois : List String
  seenTitles : List String
  successful : List String
  failed : List String
  out : List Record
deriving DecidableEq, Repr

/-- Fresh state: `_process_searchers` resets the summary lists and both
dedup sets at the start of every run (aggregator.py lines 70-77). -/
def initState : AggState := ⟨[], [], [], [], []⟩

/-- The inner result loop of `_process_searchers` (aggregator.py lines
92-119) run over one searcher's raw results from the given dedup sets:
returns the final `seen_dois`, the final `seen_titles_without_doi`, and the
records yielded, in order. A record whose lower-cased stripped DOI is
nonempty and not `'n/a'` is deduplicated against `seen_dois`; otherwise it
falls back to title dedup against `seen_titles_without_doi`. -/
def dedupStep : List String → List String → List Record →
    List String × List String × List Record
  | sd, tt, [] => (sd, tt, [])
  | sd, tt, r :: rs =>
    if normKey r.doi ≠ "" ∧ normKey r.doi ≠ "n/a" then
      if normKey r.doi ∈ sd then dedupStep sd tt rs
      else
        let p := dedupStep (normKey r.doi :: sd) tt rs
        (p.1, p.2.1, r :: p.2.2)
    else
      if normKey r.title ∈ tt then dedupStep sd tt rs
      else
        let p := dedupStep sd (normKey r.title :: tt) rs
        (p.1, p.2.1, r :: p.2.2)

/-- The body of the searcher loop of `_process_searchers` (aggregator.py
lines 82-127) for one searcher: on a normal return of `search` +
`get_results` the raw results are deduplicated and yielded and the searcher
is appended to the successful list; any exception is caught and the
searcher is appended to the failed list, the dedup state and yields
untouched. -/
def stepSearcher (query : String) (limit : Int) (searchType : String)
    (filters : List (String × Option Int)) (st : AggState) (s : Searcher) : AggState :=
  match callSearch s query limit searchType filters with
  | Except.ok raw =>
      let p := dedupStep st.seenDois st.seenTitles raw
      { st with seenDois := p.1, seenTitles := p.2.1,
                out := st.out ++ p.2.2,
                successful := st.successful ++ [s.name] }
  | Except.error _ => { st with failed := st.failed ++ [s.name] }

/-- Embedding of `_process_searchers` over the whole searcher list, from a fresh run
state. The `out` component is the full yield sequence of the generator;
`successful` and `failed` are the run-summary lists it leaves behind. -/
def process_searchers (query : String) (limit : Int) (searchType : String)
    (filters : List (String × Option Int)) (searchers : List Searcher) : AggState :=
  searchers.foldl (stepSearcher query limit searchType filters) initState

/-- The record-by-record semantics of the generator returned in streaming
mode: yields each searcher's unique records as they are produced,
threading the dedup sets from searcher to searcher. -/
def streamRun (query : String) (limit : Int) (searchType : String)
    (filters : List (String × Option Int)) :
    List String → List String → List Searcher → List Record
  | _, _, [] => []
  | sd, tt, s :: rest =>
    match callSearch s query limit searchType filters with
    | Except.ok raw =>
        let p := dedupStep sd tt raw
        p.2.2 ++ streamRun query limit searchType filters p.1 p.2.1 rest
    | Except.error _ => streamRun query limit searchType filters sd tt rest

/-- Streaming mode, `run_all_searches(..., stream=True)` (aggregator.py lines 151-153):
returns the generator; its fully drained output is the yield sequence. -/
def run_all_searches_stream (query : String) (limit : Int) (searchType : String)
    (filters : List (String × Option Int)) (searchers : List Searcher) : List Record :=
  streamRun query limit searchType filters [] [] searchers

/-- Materialized mode, `run_all_searches(..., stream=False)` (aggregator.py lines 154-158):
consumes the generator into a list. -/
def run_all_searches_list (query : String) (limit : Int) (searchType : String)
    (filters : List (String × Option Int)) (searchers : List Searcher) : List Record :=
  (process_searchers query limit searchType filters searchers).out

/-- The run summary dict returned by `get_last_run_summary`
(aggregator.py lines 160-170). -/
structure Summary where
  successful : List String
  failed : List String
deriving DecidableEq, Repr

/-- The summary `get_last_run_summary` returns after the run embodied by `st`. -/
def get_last_run_summary (st : AggState) : Summary :=
  ⟨st.successful, st.failed⟩

/-- All records produced during a run, in processing order: the
concatenation, in adapter order, of the raw result lists of the searchers
whose `search` + `get_results` returned normally (whether served from
cache or fetched fresh — both surface through `get_results`). -/
def producedRecords (query : String) (limit : Int) (searchType : String)
    (filters : List (String × Option Int)) : List Searcher → List Record
  | [] => []
  | s :: rest =>
    match callSearch s query limit searchType filters with
    | Except.ok raw => raw ++ producedRecords query limit searchType filters rest
    | Except.error _ => producedRecords query limit searchType filters rest

/-- Whether the orchestrator's call on this searcher returns normally. -/
def isOkCall (query : String) (limit : Int) (searchType : String)
    (filters : List (String × Option Int)) (s : Searcher) : Bool :=
  match callSearch s query limit searchType filters with
  | Except.ok _ => true
  | Except.error _ => false

/-- Names of the searchers whose call returns normally, in adapter order. -/
def successfulNames (query : String) (limit : Int) (searchType : String)
    (filters : List (String × Option Int)) (ss : List Searcher) : List String :=
  (ss.filter (isOkCall query limit searchType filters)).map Searcher.name

/-- Names of the searchers whose call raises, in adapter order. -/
def failedNames (query : String) (limit : Int) (searchType : String)
    (filters : List (String × Option Int)) (ss : List Searcher) : List String :=
  (ss.filter (fun s => !(isOkCall query limit searchType filters s))).map Searcher.name

theorem foldl_step_out (query : String) (limit : Int) (searchType : String)
    (filters : List (String × Option Int)) :
    ∀ (post : List Searcher) (st : AggState),
      (List.foldl (stepSearcher query limit searchType filters) st post).out =
        st.out ++ streamRun query limit searchType filters st.seenDois st.seenTitles post := by
  intro post
  induction post with
  | nil => intro st; simp [streamRun]
  | cons s rest ih =>
      intro st
      rcases h : callSearch s query limit searchType filters with raw | e <;>
        simp [streamRun, stepSearcher, h, ih]

theorem foldl_step_successful (query : String) (limit : Int) (searchType : String)
    (filters : List (String × Option Int)) :
    ∀ (post : List Searcher) (st : AggState),
      (List.foldl (stepSearcher query limit searchType filters) st post).successful =
        st.successful ++ successfulNames query limit searchType filters post := by
  intro post
  induction post with
  | nil => intro st; simp [successfulNames]
  | cons s rest ih =>
      intro st
      rcases h : callSearch s query limit searchType filters with raw | e <;>
        simp [successfulNames, isOkCall, stepSearcher, h, ih, List.filter_cons]

theorem foldl_step_failed (query : String) (limit : Int) (searchType : String)
    (filters : List (String × Option Int)) :
    ∀ (post : List Searcher) (st : AggState),
      (List.foldl (stepSearcher query limit searchType filters) st post).failed =
        st.failed ++ failedNames query limit searchType filters post := by
  intro post
  induction post with
  | nil => intro st; simp [failedNames]
  | cons s rest ih =>
      intro st
      rcases h : callSearch s query limit searchType filters with raw | e <;>
        simp [failedNames, isOkCall, stepSearcher, h, ih, List.filter_cons]

/-- C7. Streaming/materialized equivalence: for identical query, limit,
search type, filters, adapter list and adapter behaviour, the fully
drained output of `run_all_searches` with `stream=True` equals, element
for element and in order, the list returned with `stream=False` (which the
code builds by draining the very same generator). -/
theorem streaming_materialized_equivalence (query : String) (limit : Int)
    (searchType : String) (filters : List (String × Option Int))
    (searchers : List Searcher) :
    run_all_searches_stream query limit searchType filters searchers =
      run_all_searches_list query limit searchType filters searchers := by
  simp [run_all_searches_stream, run_all_searches_list, process_searchers,
    foldl_step_out, initState]

/-- C1. Partial-failure containment: over an ordered adapter list
[A, B, C] where B's search raises any exception and A and C succeed, the
run yields exactly the unique records of A and C (equal to the run over
[A, C] alone), `get_last_run_summary` reports A and C successful and B
failed, and B's exception is absorbed inside the searcher loop — the run
completes and C is still attempted. -/
theorem partial_failure_containment (query : String) (limit : Int)
    (searchType : String) (filters : List (String × Option Int))
    (A B C : Searcher)
    (hA : ∃ ra, callSearch A query limit searchType filters = Except.ok ra)
    (hB : ∃ e, callSearch B query limit searchType filters = Except.error e)
    (hC : ∃ rc, callSearch C query limit searchType filters = Except.ok rc) :
    (process_searchers query limit searchType filters [A, B, C]).out =
      (process_searchers query limit searchType filters [A, C]).out ∧
    get_last_run_summary (process_searchers query limit searchType filters [A, B, C]) =
      ⟨[A.name, C.name], [B.name]⟩ := by
  obtain ⟨ra, hra⟩ := hA
  obtain ⟨e, hbe⟩ := hB
  obtain ⟨rc, hrc⟩ := hC
  refine ⟨?_, ?_⟩ <;>
    simp [process_searchers, stepSearcher, hra, hbe, hrc, get_last_run_summary, initState]

/-- Record returned by the concrete successful adapter A used as witness. -/
def wRecA : Record := ⟨"alpha", "10.1/a", "A"⟩

/-- Record returned by the concrete successful adapter C used as witness. -/
def wRecC : Record := ⟨"gamma", "10.1/c", "C"⟩

/-- Concrete adapter A: accepts the orchestrator's four-argument call and
returns one record. -/
def wSearcherA : Searcher := ⟨"A", 1, 4, fun _ _ _ _ => Except.ok [wRecA]⟩

/-- Concrete adapter B: accepts the call but raises. -/
def wSearcherB : Searcher := ⟨"B", 1, 4, fun _ _ _ _ => Except.error "boom"⟩

/-- Concrete adapter C: accepts the call and returns one record. -/
def wSearcherC : Searcher := ⟨"C", 1, 4, fun _ _ _ _ => Except.ok [wRecC]⟩

theorem partial_failure_containment_witness :
    (process_searchers "q" 5 "keyword" [] [wSearcherA, wSearcherB, wSearcherC]).out =
      (process_searchers "q" 5 "keyword" [] [wSearcherA, wSearcherC]).out ∧
    get_last_run_summary
        (process_searchers "q" 5 "keyword" [] [wSearcherA, wSearcherB, wSearcherC]) =
      ⟨["A", "C"], ["B"]⟩ :=
  partial_failure_containment "q" 5 "keyword" [] wSearcherA wSearcherB wSearcherC
    ⟨[wRecA], rfl⟩ ⟨"boom", rfl⟩ ⟨[wRecC], rfl⟩

theorem dedupStep_append :
    ∀ (xs ys : List Record) (sd tt : List String),
      dedupStep sd tt (xs ++ ys) =
        ((dedupStep (dedupStep sd tt xs).1 (dedupStep sd tt xs).2.1 ys).1,
         (dedupStep (dedupStep sd tt xs).1 (dedupStep sd tt xs).2.1 ys).2.1,
         (dedupStep sd tt xs).2.2 ++
           (dedupStep (dedupStep sd tt xs).1 (dedupStep sd tt xs).2.1 ys).2.2) := by
  intro xs
  induction xs with
  | nil => intro ys sd tt; simp [dedupStep]
  | cons r rs ih =>
      intro ys sd tt
      by_cases hv : normKey r.doi ≠ "" ∧ normKey r.doi ≠ "n/a"
      · by_cases hmem : normKey r.doi ∈ sd
        · simp [dedupStep, hv, hmem, ih]
        · simp [dedupStep, hv, hmem, ih]
      · by_cases hmem : normKey r.title ∈ tt
        · simp [dedupStep, hv, hmem, ih]
        · simp [dedupStep, hv, hmem, ih]

theorem streamRun_eq_dedup_produced (query : String) (limit : Int)
    (searchType : String) (filters : List (String × Option Int)) :
    ∀ (searchers : List Searcher) (sd tt : List String),
      streamRun query limit searchType filters sd tt searchers =
        (dedupStep sd tt (producedRecords query limit searchType filters searchers)).2.2 := by
  intro searchers
  induction searchers with
  | nil => intro sd tt; simp [streamRun, producedRecords, dedupStep]
  | cons s rest ih =>
      intro sd tt
      rcases h : callSearch s query limit searchType filters with e | raw
      · simp [streamRun, producedRecords, h, ih]
      · simp only [streamRun, producedRecords, h, ih]
        rw [dedupStep_append]

theorem dedup_filter_doi (d : String) (h1 : d ≠ "") (h2 : d ≠ "n/a") :
    ∀ (rs : List Record) (sd tt : List String),
      ((dedupStep sd tt rs).2.2).filter (fun r => decide (normKey r.doi = d)) =
        if d ∈ sd then []
        else (rs.filter (fun r => decide (normKey r.doi = d))).take 1 := by
  intro rs
  induction rs with
  | nil => intro sd tt; simp [dedupStep]
  | cons r rs ih =>
      intro sd tt
      by_cases hv : normKey r.doi ≠ "" ∧ normKey r.doi ≠ "n/a"
      · by_cases hmem : normKey r.doi ∈ sd
        · by_cases hd : normKey r.doi = d
          · subst hd
            simp [dedupStep, hv, hmem, ih, List.filter_cons]
          · simp [dedupStep, hv, hmem, ih, List.filter_cons, hd]
        · by_cases hd : normKey r.doi = d
          · subst hd
            simp [dedupStep, hv, hmem, ih, List.filter_cons]
          · have hmem2 : (d ∈ normKey r.doi :: sd) ↔ d ∈ sd := by
              constructor
              · intro h
                rcases List.mem_cons.mp h with h | h
                · exact (hd h.symm).elim
                · exact h
              · exact fun h => List.mem_cons_of_mem _ h
            simp [dedupStep, hv, hmem, ih, List.filter_cons, hd, hmem2]
      · have hd : ¬(normKey r.doi = d) := fun h => hv (h ▸ ⟨h1, h2⟩)
        by_cases hmem : normKey r.title ∈ tt
        · simp [dedupStep, hv, hmem, ih, List.filter_cons, hd]
        · simp [dedupStep, hv, hmem, ih, List.filter_cons, hd]

/-- Record 1 of adapter A in the spec's concrete scenario. -/
def gnnA1 : Record := ⟨"gnn survey", "10.1/x", "A"⟩

/-- Record 2 of adapter A in the spec's concrete scenario. -/
def gnnA2 : Record := ⟨"gnn methods", "10.1/m", "A"⟩

/-- Record 3 of adapter A in the spec's concrete scenario. -/
def gnnA3 : Record := ⟨"gnn theory", "10.1/t", "A"⟩

/-- Record 1 of adapter B: B's version of the record with DOI 10.1/x. -/
def gnnB1 : Record := ⟨"gnn survey again", "10.1/x", "B"⟩

/-- Record 2 of adapter B: a new record. -/
def gnnB2 : Record := ⟨"gnn applications", "10.1/p", "B"⟩

/-- Adapter A of the concrete scenario: returns 3 records. -/
def gnnSearcherA : Searcher := ⟨"A", 1, 4, fun _ _ _ _ => Except.ok [gnnA1, gnnA2, gnnA3]⟩

/-- Adapter B of the concrete scenario: returns 2 records, one sharing
DOI 10.1/x with A and one new. -/
def gnnSearcherB : Searcher := ⟨"B", 1, 4, fun _ _ _ _ => Except.ok [gnnB1, gnnB2]⟩

/-- C2. Dedup totality, first writer wins: among all records produced in
one run (cached or fresh) whose normalized (lower-cased, stripped) DOI
equals a given valid key `d`, exactly the first in processing order —
i.e. the one from the earliest-ordered adapter producing it — survives in
the output (the survivors with that DOI are `take 1` of the producers with
that DOI). In the spec's concrete scenario (adapters [A, B], A returns 3
records including DOI 10.1/x, B returns 2 records, one sharing 10.1/x and
one new), the unique output has size 4 and the 10.1/x record is A's
version. -/
theorem dedup_totality_first_writer_wins :
    (∀ (query : String) (limit : Int) (searchType : String)
        (filters : List (String × Option Int)) (searchers : List Searcher) (d : String),
        d ≠ "" → d ≠ "n/a" →
        (run_all_searches_list query limit searchType filters searchers).filter
            (fun r => decide (normKey r.doi = d)) =
          ((producedRecords query limit searchType filters searchers).filter
            (fun r => decide (normKey r.doi = d))).take 1) ∧
    run_all_searches_list "graph neural networks" 5 "keyword" []
        [gnnSearcherA, gnnSearcherB] = [gnnA1, gnnA2, gnnA3, gnnB2] ∧
    (run_all_searches_list "graph neural networks" 5 "keyword" []
        [gnnSearcherA, gnnSearcherB]).length = 4 ∧
    (run_all_searches_list "graph neural networks" 5 "keyword" []
        [gnnSearcherA, gnnSearcherB]).filter
        (fun r => decide (normKey r.doi = "10.1/x")) = [gnnA1] ∧
    gnnA1.source = "A" := by
  refine ⟨?_, by decide, by decide, by decide, rfl⟩
  intro query limit searchType filters searchers d h1 h2
  rw [← streaming_materialized_equivalence, run_all_searches_stream,
    streamRun_eq_dedup_produced, dedup_filter_doi d h1 h2]
  simp

theorem dedup_totality_first_writer_wins_witness :
    (run_all_searches_list "graph neural networks" 5 "keyword" []
        [gnnSearcherA, gnnSearcherB]).filter
        (fun r => decide (normKey r.doi = "10.1/x")) =
      ((producedRecords "graph neural networks" 5 "keyword" []
        [gnnSearcherA, gnnSearcherB]).filter
        (fun r => decide (normKey r.doi = "10.1/x"))).take 1 :=
  dedup_totality_first_writer_wins.1 "graph neural networks" 5 "keyword" []
    [gnnSearcherA, gnnSearcherB] "10.1/x" (by decide) (by decide)

/-- A concrete adapter whose returned record embeds the query it was
invoked with, making the invocation observable in the run output. -/
def echoSearcher : Searcher :=
  ⟨"Echo", 1, 4, fun q _ _ _ => Except.ok [⟨"echo:" ++ q, "10.1/e", "Echo"⟩]⟩

/-- C3 counterexample. A call of `run_all_searches` with empty query text
and non-positive limit is not rejected: the adapter's search is invoked
(its record, built from the empty query it received, is in the output and
the adapter is reported successful), and the run completes normally
instead of surfacing a Configuration Error. `run_all_searches` contains
no validation of query or limit at all. -/
theorem config_rejection_counterexample :
    (process_searchers "" 0 "keyword" [] [echoSearcher]).successful = ["Echo"] ∧
    (process_searchers "" 0 "keyword" [] [echoSearcher]).out =
      [⟨"echo:", "10.1/e", "Echo"⟩] := by decide

/-- C3 amended. `run_all_searches` performs no validation of the query
text or the limit: for every query (including the empty one) and every
limit (including non-positive ones) each adapter in the list is attempted
— every searcher lands in exactly one of the two summary lists, none is
skipped by a synchronous rejection. (Empty query and non-positive limit
are rejected only by the interactive input layer in `main.py`, before
`run_all_searches` is ever called.) -/
theorem no_config_validation (query : String) (limit : Int) (searchType : String)
    (filters : List (String × Option Int)) (searchers : List Searcher) :
    (process_searchers query limit searchType filters searchers).successful.length +
      (process_searchers query limit searchType filters searchers).failed.length =
      searchers.length := by
  rw [process_searchers, foldl_step_successful, foldl_step_failed]
  simp only [initState, List.nil_append, successfulNames, failedNames,
    List.length_map]
  exact (List.length_eq_length_filter_add
    (isOkCall query limit searchType filters)).symm

theorem no_config_validation_witness :
    (process_searchers "" 0 "keyword" [] [echoSearcher, wSearcherB]).successful.length +
      (process_searchers "" 0 "keyword" [] [echoSearcher, wSearcherB]).failed.length = 2 :=
  no_config_validation "" 0 "keyword" [] [echoSearcher, wSearcherB]

/-- A record carries a DOI the dedup treats as real: nonempty and not the
`'n/a'` sentinel after lower-casing and stripping (aggregator.py line
100). -/
def realDoi (r : Record) : Prop :=
  normKey r.doi ≠ "" ∧ normKey r.doi ≠ "n/a"

instance (r : Record) : Decidable (realDoi r) := by
  unfold realDoi; infer_instance

/-- Same-universe collision: two records collide only if both carry real
DOIs and their normalized DOIs agree, or neither carries a real DOI and
their normalized titles agree. This is the spec's description of the two
dedup universes; the theorem below proves the implementation suppresses
records exactly by this relation against earlier-produced records. -/
def collides (a b : Record) : Prop :=
  (realDoi a ∧ realDoi b ∧ normKey a.doi = normKey b.doi) ∨
  (¬realDoi a ∧ ¬realDoi b ∧ normKey a.title = normKey b.title)

instance (a b : Record) : Decidable (collides a b) := by
  unfold collides; infer_instance

/-- Reference dedup, following the spec's words: keep a record iff no
earlier-produced record (kept or not) collides with it in the same
universe. -/
def keepFirstOccurrence (earlier : List Record) : List Record → List Record
  | [] => []
  | r :: rs =>
    if ∃ a ∈ earlier, collides a r then keepFirstOccurrence (earlier ++ [r]) rs
    else r :: keepFirstOccurrence (earlier ++ [r]) rs

/-- Some earlier record carries real DOI with normalized key `x`. -/
def doiSeen (earlier : List Record) (x : String) : Prop :=
  ∃ a ∈ earlier, realDoi a ∧ normKey a.doi = x

/-- Some earlier record lacks a real DOI and has normalized title `x`. -/
def titleSeen (earlier : List Record) (x : String) : Prop :=
  ∃ a ∈ earlier, ¬realDoi a ∧ normKey a.title = x

theorem doiSeen_append (earlier : List Record) (r : Record) (x : String) :
    doiSeen (earlier ++ [r]) x ↔ doiSeen earlier x ∨ (realDoi r ∧ normKey r.doi = x) := by
  simp [doiSeen, List.mem_append, or_and_right, exists_or]

theorem titleSeen_append (earlier : List Record) (r : Record) (x : String) :
    titleSeen (earlier ++ [r]) x ↔ titleSeen earlier x ∨ (¬realDoi r ∧ normKey r.title = x) := by
  simp [titleSeen, List.mem_append, or_and_right, exists_or]

theorem dedup_eq_keepFirst :
    ∀ (rs earlier : List Record) (sd tt : List String),
      (∀ x, x ∈ sd ↔ doiSeen earlier x) →
      (∀ x, x ∈ tt ↔ titleSeen earlier x) →
      (dedupStep sd tt rs).2.2 = keepFirstOccurrence earlier rs := by
  intro rs
  induction rs with
  | nil => intro earlier sd tt _ _; simp [dedupStep, keepFirstOccurrence]
  | cons r rs ih =>
      intro earlier sd tt hsd htt
      by_cases hv : normKey r.doi ≠ "" ∧ normKey r.doi ≠ "n/a"
      · have hvr : realDoi r := hv
        by_cases hmem : normKey r.doi ∈ sd
        · have hcol : ∃ a ∈ earlier, collides a r := by
            obtain ⟨a, ha, hra, hkey⟩ := (hsd _).mp hmem
            exact ⟨a, ha, Or.inl ⟨hra, hvr, hkey⟩⟩
          have hsd2 : ∀ x, x ∈ sd ↔ doiSeen (earlier ++ [r]) x := by
            intro x
            rw [doiSeen_append, ← hsd x]
            constructor
            · exact Or.inl
            · rintro (hx | ⟨_, hkey⟩)
              · exact hx
              · exact hkey ▸ hmem
          have htt2 : ∀ x, x ∈ tt ↔ titleSeen (earlier ++ [r]) x := by
            intro x
            rw [titleSeen_append, ← htt x]
            constructor
            · exact Or.inl
            · rintro (hx | ⟨hnr, _⟩)
              · exact hx
              · exact absurd hvr hnr
          simp only [dedupStep, keepFirstOccurrence]
          rw [if_pos hv, if_pos hmem, if_pos hcol]
          exact ih (earlier ++ [r]) sd tt hsd2 htt2
        · have hncol : ¬∃ a ∈ earlier, collides a r := by
            rintro ⟨a, ha, hcol⟩
            rcases hcol with ⟨hra, _, hkey⟩ | ⟨_, hnr, _⟩
            · exact hmem ((hsd _).mpr ⟨a, ha, hra, hkey⟩)
            · exact hnr hvr
          have hsd2 : ∀ x, x ∈ normKey r.doi :: sd ↔ doiSeen (earlier ++ [r]) x := by
            intro x
            rw [doiSeen_append, ← hsd x, List.mem_cons]
            constructor
            · rintro (rfl | hx)
              · exact Or.inr ⟨hvr, rfl⟩
              · exact Or.inl hx
            · rintro (hx | ⟨_, hkey⟩)
              · exact Or.inr hx
              · exact Or.inl hkey.symm
          have htt2 : ∀ x, x ∈ tt ↔ titleSeen (earlier ++ [r]) x := by
            intro x
            rw [titleSeen_append, ← htt x]
            constructor
            · exact Or.inl
            · rintro (hx | ⟨hnr, _⟩)
              · exact hx
              · exact absurd hvr hnr
          simp only [dedupStep, keepFirstOccurrence]
          rw [if_pos hv, if_neg hmem, if_neg hncol]
          exact congrArg (r :: ·) (ih (earlier ++ [r]) (normKey r.doi :: sd) tt hsd2 htt2)
      · have hnvr : ¬realDoi r := hv
        by_cases hmem : normKey r.title ∈ tt
        · have hcol : ∃ a ∈ earlier, collides a r := by
            obtain ⟨a, ha, hna, hkey⟩ := (htt _).mp hmem
            exact ⟨a, ha, Or.inr ⟨hna, hnvr, hkey⟩⟩
          have hsd2 : ∀ x, x ∈ sd ↔ doiSeen (earlier ++ [r]) x := by
            intro x
            rw [doiSeen_append, ← hsd x]
            constructor
            · exact Or.inl
            · rintro (hx | ⟨hr, _⟩)
              · exact hx
              · exact absurd hr hnvr
          have htt2 : ∀ x, x ∈ tt ↔ titleSeen (earlier ++ [r]) x := by
            intro x
            rw [titleSeen_append, ← htt x]
            constructor
            · exact Or.inl
            · rintro (hx | ⟨_, hkey⟩)
              · exact hx
              · exact hkey ▸ hmem
          simp only [dedupStep, keepFirstOccurrence]
          rw [if_neg hv, if_pos hmem, if_pos hcol]
          exact ih (earlier ++ [r]) sd tt hsd2 htt2
        · have hncol : ¬∃ a ∈ earlier, collides a r := by
            rintro ⟨a, ha, hcol⟩
            rcases hcol with ⟨_, hr, _⟩ | ⟨hna, _, hkey⟩
            · exact hnvr hr
            · exact hmem ((htt _).mpr ⟨a, ha, hna, hkey⟩)
          have hsd2 : ∀ x, x ∈ sd ↔ doiSeen (earlier ++ [r]) x := by
            intro x
            rw [doiSeen_append, ← hsd x]
            constructor
            · exact Or.inl
            · rintro (hx | ⟨hr, _⟩)
              · exact hx
              · exact absurd hr hnvr
          have htt2 : ∀ x, x ∈ normKey r.title :: tt ↔ titleSeen (earlier ++ [r]) x := by
            intro x
            rw [titleSeen_append, ← htt x, List.mem_cons]
            constructor
            · rintro (rfl | hx)
              · exact Or.inr ⟨hnvr, rfl⟩
              · exact Or.inl hx
            · rintro (hx | ⟨_, hkey⟩)
              · exact Or.inr hx
              · exact Or.inl hkey.symm
          simp only [dedupStep, keepFirstOccurrence]
          rw [if_neg hv, if_neg hmem, if_neg hncol]
          exact congrArg (r :: ·) (ih (earlier ++ [r]) sd (normKey r.title :: tt) hsd2 htt2)

/-- C6. Dedup fallback isolation: the run output equals the reference
dedup in which a record is suppressed only by an earlier-produced record
of the same universe — a record without a valid DOI only by an earlier
record that also lacked a valid DOI and had the same normalized title,
and a DOI-bearing record only by an earlier record with the same
normalized DOI. The DOI-keyed and title-keyed universes never
cross-collide. -/
theorem dedup_fallback_isolation (query : String) (limit : Int)
    (searchType : String) (filters : List (String × Option Int))
    (searchers : List Searcher) :
    run_all_searches_list query limit searchType filters searchers =
      keepFirstOccurrence [] (producedRecords query limit searchType filters searchers) := by
  rw [← streaming_materialized_equivalence, run_all_searches_stream,
    streamRun_eq_dedup_produced]
  exact dedup_eq_keepFirst _ [] [] []
    (by intro x; simp [doiSeen]) (by intro x; simp [titleSeen])

theorem producedRecords_append (query : String) (limit : Int) (searchType : String)
    (filters : List (String × Option Int)) :
    ∀ (xs ys : List Searcher),
      producedRecords query limit searchType filters (xs ++ ys) =
        producedRecords query limit searchType filters xs ++
          producedRecords query limit searchType filters ys := by
  intro xs ys
  induction xs with
  | nil => simp [producedRecords]
  | cons s rest ih =>
      rcases h : callSearch s query limit searchType filters with e | raw <;>
        simp [producedRecords, h, ih]

/-- Model of `PubmedSearcher` as the orchestrator sees it: its `search` method is
declared `def search(self, query: str, limit: int = 10)` (pubmed.py line
50) — one required positional parameter and at most two. `b` stands for
whatever the method body would do; the four-positional-argument call never
reaches it. -/
def PubmedSearcher
    (b : String → Int → String → List (String × Option Int) → Except String (List Record)) :
    Searcher :=
  ⟨"PubMed", 1, 2, b⟩

/-- C10. Every run whose adapter list contains a `PubmedSearcher` reports
it failed and gets no records from it: the orchestrator calls
`search(query, limit, search_type, filters)` with four positional
arguments, `PubmedSearcher.search` accepts only `(query, limit)`, so the
call raises `TypeError` at binding time — before any fetch, whatever the
method body `b` would have done — and the caught exception lands the
searcher in the failed list while the output equals that of the run
without it. -/
theorem pubmed_always_fails (query : String) (limit : Int) (searchType : String)
    (filters : List (String × Option Int))
    (b : String → Int → String → List (String × Option Int) → Except String (List Record))
    (pre post : List Searcher) :
    callSearch (PubmedSearcher b) query limit searchType filters =
      Except.error "TypeError" ∧
    "PubMed" ∈
      (process_searchers query limit searchType filters
        (pre ++ PubmedSearcher b :: post)).failed ∧
    (process_searchers query limit searchType filters
        (pre ++ PubmedSearcher b :: post)).out =
      (process_searchers query limit searchType filters (pre ++ post)).out := by
  have hc : callSearch (PubmedSearcher b) query limit searchType filters =
      Except.error "TypeError" := by
    simp [callSearch, PubmedSearcher]
  refine ⟨hc, ?_, ?_⟩
  · have hpm : (!isOkCall query limit searchType filters (PubmedSearcher b)) = true := by
      simp [isOkCall, hc]
    have hname : (PubmedSearcher b).name = "PubMed" := rfl
    rw [process_searchers, foldl_step_failed]
    simp [initState, failedNames, List.filter_append, List.filter_cons, hpm, hname]
  · rw [process_searchers, process_searchers, foldl_step_out, foldl_step_out]
    simp only [initState, List.nil_append]
    rw [streamRun_eq_dedup_produced, streamRun_eq_dedup_produced,
      producedRecords_append, producedRecords_append]
    have hskip : producedRecords query limit searchType filters (PubmedSearcher b :: post) =
        producedRecords query limit searchType filters post := by
      simp [producedRecords, hc]
    rw [hskip]

/-- Python `s.lower()` (`str.lower`), over the character list so that it
evaluates by kernel reduction. -/
def pyLower (s : String) : String := String.mk (s.data.map Char.toLower)

/-- Ordering of filter entries by key. `sorted(filters.items())` sorts
pairs lexicographically, but the keys of a Python dict are pairwise
distinct, so within one filters dict the order is decided by the keys
alone. -/
def filterKeyLe (a b : String × Option Int) : Prop := a.1 ≤ b.1

instance (a b : String × Option Int) : Decidable (filterKeyLe a b) := by
  unfold filterKeyLe; infer_instance

instance : IsTotal (String × Option Int) filterKeyLe :=
  ⟨fun a b => le_total a.1 b.1⟩

instance : IsTrans (String × Option Int) filterKeyLe :=
  ⟨fun _ _ _ hab hbc => le_trans hab hbc⟩

/-- Strict key ordering, used to see that two sorted filter lists with the
same entries coincide. -/
def filterKeyLt (a b : String × Option Int) : Prop := a.1 < b.1

instance : IsAntisymm (String × Option Int) filterKeyLt :=
  ⟨fun _ _ hab hba => (lt_asymm hab hba).elim⟩

/-- Embedding of `sorted(filters.items())` (cache.py line 63). -/
def sortedFilters (filters : List (String × Option Int)) : List (String × Option Int) :=
  List.insertionSort filterKeyLe filters

/-- Rendering of one filter entry, Python `str(k) + "_" + str(v)`. Entries with value `None` are
dropped before rendering, so only the `some` branch is ever reached. -/
def filterEntryStr : String × Option Int → String
  | (k, some v) => k ++ "_" ++ toString v
  | (k, none) => k ++ "_None"

/-- Embedding of `CacheManager._generate_cache_key` (cache.py lines 42-69) up to the
final MD5 step: the normalized `key_string`
`f"{query.lower()}_{source}_{limit}_{search_type}{filter_str}"`, where
`filter_str` is `"_" + "_".join(f"{k}_{v}" ...)` over the sorted filter
items with `None` values dropped, and is empty when the filters dict is
empty. The stored fingerprint is `md5(key_string)`, a deterministic
function of this string, so equal key strings give equal fingerprints. -/
def generate_cache_key (query source : String) (limit : Int) (search_type : String)
    (filters : List (String × Option Int)) : String :=
  let filterStr :=
    if filters.isEmpty then ""
    else "_" ++ String.intercalate "_"
      (((sortedFilters filters).filter (fun kv => kv.2 ≠ none)).map filterEntryStr)
  pyLower query ++ "_" ++ source ++ "_" ++ toString limit ++ "_" ++ search_type ++ filterStr

theorem sortedFilters_sorted_lt (f : List (String × Option Int))
    (h : (f.map Prod.fst).Nodup) :
    List.Sorted filterKeyLt (sortedFilters f) := by
  have hle : List.Sorted filterKeyLe (sortedFilters f) :=
    List.sorted_insertionSort filterKeyLe f
  have hnd : ((sortedFilters f).map Prod.fst).Nodup :=
    (((List.perm_insertionSort filterKeyLe f).map Prod.fst).nodup_iff).mpr h
  have hne : List.Pairwise (fun a b : String × Option Int => a.1 ≠ b.1) (sortedFilters f) :=
    List.pairwise_map.mp hnd
  exact (hle.and hne).imp fun hab => lt_of_le_of_ne hab.1 hab.2

/-- C4. Fingerprint stability: the cache key is invariant under
reordering of the filter entries — for any two filter dicts with the same
entries (a permutation, with the distinct keys a Python dict guarantees),
`_generate_cache_key` produces the same key string, hence the same MD5
fingerprint. Filter ordering never changes the fingerprint. -/
theorem fingerprint_stability (query source : String) (limit : Int) (searchType : String)
    (f1 f2 : List (String × Option Int)) (hperm : f1.Perm f2)
    (hkeys : (f1.map Prod.fst).Nodup) :
    generate_cache_key query source limit searchType f1 =
      generate_cache_key query source limit searchType f2 := by
  have hkeys2 : (f2.map Prod.fst).Nodup := ((hperm.map Prod.fst).nodup_iff).mp hkeys
  have hsort : sortedFilters f1 = sortedFilters f2 :=
    List.eq_of_perm_of_sorted
      ((List.perm_insertionSort filterKeyLe f1).trans
        (hperm.trans (List.perm_insertionSort filterKeyLe f2).symm))
      (sortedFilters_sorted_lt f1 hkeys) (sortedFilters_sorted_lt f2 hkeys2)
  have hemp : f1.isEmpty = f2.isEmpty := by
    have := hperm.length_eq
    cases f1 <;> cases f2 <;> simp_all
  simp only [generate_cache_key, hsort, hemp]

theorem fingerprint_stability_witness :
    generate_cache_key "Q" "prov" 5 "keyword" [("a", some 1), ("b", some 2)] =
      generate_cache_key "Q" "prov" 5 "keyword" [("b", some 2), ("a", some 1)] :=
  fingerprint_stability "Q" "prov" 5 "keyword"
    [("a", some 1), ("b", some 2)] [("b", some 2), ("a", some 1)]
    (by decide) (by decide)

/-- One cache file: its write instant (the file's `st_mtime`) and the
stored record list. -/
structure CacheEntry where
  writtenAt : ℚ
  records : List Record

/-- The cache directory: for each key either a file or nothing. -/
def CacheStore := String → Option CacheEntry

/-- Embedding of `CacheManager._is_cache_valid` (cache.py lines 75-90): the file exists
and its age `now - st_mtime` is strictly below `expiry_seconds`. -/
def is_cache_valid (expiry_seconds now : ℚ) : Option CacheEntry → Bool
  | none => false
  | some e => decide (now - e.writtenAt < expiry_seconds)

/-- Embedding of `CacheManager.get` (cache.py lines 92-118): build the key, and return
the stored records iff the entry is valid, `None` otherwise. `get` only
reads — the second component is the store after the call, which is the
store unchanged (stale entries are removed only by `clear_expired`). The
code's read-error path (corrupt file treated as a miss) is outside the
claims and not modelled: reading a present entry succeeds. -/
def cache_get (store : CacheStore) (expiry_seconds now : ℚ) (query source : String)
    (limit : Int) (search_type : String) (filters : List (String × Option Int)) :
    Option (List Record) × CacheStore :=
  let key := generate_cache_key query source limit search_type filters
  if is_cache_valid expiry_seconds now (store key) then
    ((store key).map CacheEntry.records, store)
  else (none, store)

/-- C5. TTL boundary: for an entry written at time T with time-to-live
`expiry`, a `get` at any time strictly before `T + expiry` returns the
stored records, and a `get` at or after `T + expiry` returns absent; in
both cases the store is left unchanged — a stale entry behaves as absent
without being deleted by `get`. -/
theorem ttl_boundary (store : CacheStore) (expiry now T : ℚ) (query source : String)
    (limit : Int) (searchType : String) (filters : List (String × Option Int))
    (recs : List Record)
    (hentry : store (generate_cache_key query source limit searchType filters) =
      some ⟨T, recs⟩) :
    (now < T + expiry →
      cache_get store expiry now query source limit searchType filters =
        (some recs, store)) ∧
    (T + expiry ≤ now →
      cache_get store expiry now query source limit searchType filters =
        (none, store)) := by
  constructor
  · intro h
    have hv : is_cache_valid expiry now (some ⟨T, recs⟩) = true := by
      simp only [is_cache_valid, decide_eq_true_eq]
      linarith
    simp [cache_get, hentry, hv]
  · intro h
    have hv : is_cache_valid expiry now (some ⟨T, recs⟩) = false := by
      simp only [is_cache_valid, decide_eq_false_iff_not, not_lt]
      linarith
    simp [cache_get, hentry, hv]

/-- A one-entry store: the fingerprint of the witness query maps to an
entry written at time 0 holding one record. -/
def wStore : CacheStore := fun k =>
  if k = generate_cache_key "q" "prov" 5 "keyword" [] then some ⟨0, [wRecA]⟩ else none

theorem ttl_boundary_witness :
    cache_get wStore 10 9 "q" "prov" 5 "keyword" [] = (some [wRecA], wStore) ∧
    cache_get wStore 10 10 "q" "prov" 5 "keyword" [] = (none, wStore) :=
  ⟨(ttl_boundary wStore 10 9 0 "q" "prov" 5 "keyword" [] [wRecA] (by simp [wStore])).1
      (by norm_num),
   (ttl_boundary wStore 10 10 0 "q" "prov" 5 "keyword" [] [wRecA] (by simp [wStore])).2
      (by norm_num)⟩

/-- The rate-limit state a `BaseSearcher` instance carries: the configured
minimum interval `self.rate_limit` (fixed at construction) and the mutable
`self._last_request_time`. Times are rationals standing for
`time.time()` seconds. -/
structure RateLimiterState where
  rate_limit : ℚ
  last_request_time : ℚ
deriving DecidableEq, Repr

/-- Per `BaseSearcher.__init__` (base_searcher.py lines 31-39): each instance
gets its own fresh state with `_last_request_time = 0` and its configured
interval. -/
def initRateLimiter (interval : ℚ) : RateLimiterState := ⟨interval, 0⟩

/-- Embedding of `BaseSearcher._enforce_rate_limit` (base_searcher.py lines 95-112),
called at wall-clock instant `now`: if less than `rate_limit` has elapsed
since `_last_request_time`, sleep for the difference. Returns the sleep
duration and the new state; the call completes at `now + sleep`, which is
what `self._last_request_time = time.time()` records afterwards. -/
def enforce_rate_limit (s : RateLimiterState) (now : ℚ) : ℚ × RateLimiterState :=
  if now - s.last_request_time < s.rate_limit then
    (s.rate_limit - (now - s.last_request_time),
     { s with last_request_time := now + (s.rate_limit - (now - s.last_request_time)) })
  else
    (0, { s with last_request_time := now })

/-- A pool of adapter instances, each owning its rate-limit state;
acquiring on instance `i` runs `_enforce_rate_limit` on that instance's
state only. -/
def acquireOn (pool : List RateLimiterState) (i : Nat) (now : ℚ) : List RateLimiterState :=
  match pool[i]? with
  | some s => pool.set i (enforce_rate_limit s now).2
  | none => pool

/-- C8. Rate limiter contract: (1) the first acquisition on a fresh
instance never sleeps — `_last_request_time` starts at 0 and the wall
clock `time.time()` is epoch seconds, far above any configured interval,
which the hypothesis `interval ≤ now` captures; (2) every acquisition
completes no earlier than the previous acquisition's completion
(`last_request_time`) plus the configured interval, and records its own
completion instant in `last_request_time`; (3) the state is strictly
per-instance — acquiring on instance `i` of a pool leaves every other
instance's state untouched. -/
theorem rate_limiter_contract :
    (∀ (interval now : ℚ), interval ≤ now →
      (enforce_rate_limit (initRateLimiter interval) now).1 = 0) ∧
    (∀ (s : RateLimiterState) (now : ℚ),
      s.last_request_time + s.rate_limit ≤ now + (enforce_rate_limit s now).1 ∧
      (enforce_rate_limit s now).2.last_request_time =
        now + (enforce_rate_limit s now).1) ∧
    (∀ (pool : List RateLimiterState) (i j : Nat) (now : ℚ), i ≠ j →
      (acquireOn pool i now)[j]? = pool[j]?) := by
  refine ⟨?_, ?_, ?_⟩
  · intro interval now h
    have hcond : ¬(now - (initRateLimiter interval).last_request_time <
        (initRateLimiter interval).rate_limit) := by
      simp only [initRateLimiter, not_lt]
      linarith
    simp [enforce_rate_limit, hcond]
  · intro s now
    by_cases h : now - s.last_request_time < s.rate_limit
    · simp only [enforce_rate_limit, if_pos h]
      exact ⟨by linarith, by simp⟩
    · have h2 : s.rate_limit ≤ now - s.last_request_time := not_lt.mp h
      simp only [enforce_rate_limit, if_neg h]
      exact ⟨by linarith, by simp⟩
  · intro pool i j now hij
    rcases hp : pool[i]? with _ | s
    · simp [acquireOn, hp]
    · simp [acquireOn, hp, List.getElem?_set_ne hij]

theorem rate_limiter_contract_witness :
    (enforce_rate_limit (initRateLimiter 1) 5).1 = 0 ∧
    (acquireOn [initRateLimiter 1, ⟨2, 3⟩] 0 5)[1]? = some ⟨2, 3⟩ := by
  refine ⟨rate_limiter_contract.1 1 5 (by norm_num), ?_⟩
  rw [rate_limiter_contract.2.2 [initRateLimiter 1, ⟨2, 3⟩] 0 1 5 (by decide)]
  rfl

/-- A Python value as it can appear in a result dict cell: a string, an
int, or `None`. -/
inductive CellValue where
  | str : String → CellValue
  | int : Int → CellValue
  | pynone : CellValue
deriving DecidableEq, Repr

/-- Python truthiness test `not count_input` for the cell values above:
empty string, zero and `None` are falsy. -/
def pyFalsy : CellValue → Bool
  | CellValue.str s => s == ""
  | CellValue.int n => n == 0
  | CellValue.pynone => true

/-- Python `str()` of a cell value. -/
def pyStr : CellValue → String
  | CellValue.str s => s
  | CellValue.int n => toString n
  | CellValue.pynone => "None"

/-- Model of the regex search for the pattern of one-or-more digits: the first (leftmost, maximal) run of digits in
`s`, parsed as a number; `none` when the string holds no digit. -/
def firstDigitRun (s : String) : Option Nat :=
  let ds := (s.data.dropWhile (fun c => !c.isDigit)).takeWhile Char.isDigit
  if ds.isEmpty then none
  else some (ds.foldl (fun acc c => acc * 10 + (c.toNat - 48)) 0)

/-- Embedding of `normalize_citation_count` (utils.py lines 316-337): 0 for falsy input
or the `'n/a'` sentinel (case-insensitive), else the first number found in
the string form of the input, else 0. -/
def normalize_citation_count (count_input : CellValue) : Int :=
  if pyFalsy count_input then 0
  else if pyLower (pyStr count_input) = "n/a" then 0
  else
    match firstDigitRun (pyStr count_input) with
    | some n => (n : Int)
    | none => 0

/-- One parsed arXiv feed entry, as read by `ArxivSearcher.search`. -/
structure ArxivEntry where
  title : String
  published : String
  id : String
  link : String
  rights : String
  authors : List String

/-- The `'Citation Count'` cell of the paper dict that
`ArxivSearcher.search` builds for every parsed feed entry (arxiv.py lines
67-79, line 73): the literal string `'N/A'`, written without consulting
`normalize_citation_count` and independent of the entry. -/
def arxiv_paper_citation_cell (_entry : ArxivEntry) : CellValue :=
  CellValue.str "N/A"

/-- The cell holds a non-negative integer. -/
def isNonnegIntCell (c : CellValue) : Prop :=
  ∃ n : Int, 0 ≤ n ∧ c = CellValue.int n

/-- C9 counterexample. The record ArxivSearcher builds for a concrete feed
entry carries the string `'N/A'` in its Citation Count field — not a
non-negative integer and not the integer default 0 — so the invariant
"every Record produced by every Source Adapter has Citation Count
populated as a non-negative integer, 0 when the provider supplies none"
fails at the arXiv adapter (arXiv supplies no citation counts). -/
theorem record_citation_count_counterexample :
    arxiv_paper_citation_cell
        ⟨"A Study", "2023-01-01", "http://arxiv.org/abs/2301.01234v1", "l", "r", ["X"]⟩ =
      CellValue.str "N/A" ∧
    ¬ isNonnegIntCell (arxiv_paper_citation_cell
        ⟨"A Study", "2023-01-01", "http://arxiv.org/abs/2301.01234v1", "l", "r", ["X"]⟩) := by
  refine ⟨rfl, ?_⟩
  rintro ⟨n, _, h⟩
  exact CellValue.noConfusion h

/-- C9 amended. `normalize_citation_count` always yields a non-negative
integer and yields the default 0 for the `'N/A'` sentinel and for `None` —
so the adapters that route the provider count through it (CrossRef,
Semantic Scholar, Google Scholar) satisfy the invariant — but
ArxivSearcher does not use it: it populates Citation Count with the string
sentinel `'N/A'` for every record it produces. -/
theorem record_citation_count_normalized :
    (∀ c : CellValue, 0 ≤ normalize_citation_count c) ∧
    normalize_citation_count (CellValue.str "N/A") = 0 ∧
    normalize_citation_count CellValue.pynone = 0 ∧
    (∀ e : ArxivEntry, arxiv_paper_citation_cell e = CellValue.str "N/A") := by
  refine ⟨?_, by decide, by decide, fun _ => rfl⟩
  intro c
  rw [normalize_citation_count]
  split_ifs
  · exact le_refl 0
  · exact le_refl 0
  · rcases hf : firstDigitRun (pyStr c) with _ | n
    · simp [hf]
    · simp [hf]

end ResearchFinder
